import Mathlib

/-!
Verification of the Darknote core: the crypto codec (src/lib/crypto.ts),
the note store (src/lib/db.ts) and the note lifecycle routes
(src/app/api/notes/route.ts and src/app/api/notes/[id]/increment/route.ts).

The TypeScript source delegates its cryptographic primitives (X25519 key
agreement, XSalsa20-Poly1305 AEAD, SHA-512, base64 and UTF-8 codecs) to the
external libraries tweetnacl and tweetnacl-util. Those primitives are
embedded here as executable idealized models that satisfy the documented
contract of the library (authenticated encryption: decryption succeeds
exactly on the genuine sealed payload, key agreement is commutative,
encodings round-trip). All repository logic is translated line by line
from the source over those models.

Bytes are modelled as `List Nat` (one entry per byte of the corresponding
Uint8Array).
-/

namespace Darknote

/-! ### Base64 transport codec (model of tweetnacl-util encodeBase64 and
decodeBase64). The model is an injective byte-list-to-string encoding with
an executable, total decoder that fails on strings outside the image, which
is the contract the repository relies on: decode of an encoded byte list
returns those bytes, and arbitrary strings may fail to decode (the real
decodeBase64 throws a TypeError with message invalid encoding). -/

/-- Base-1000 digits of a number, little endian, with structural fuel so the
kernel can evaluate it. `digits1000 f n` is correct whenever `n < 1000 ^ f`. -/
def digits1000 : Nat → Nat → List Nat
  | 0, _ => []
  | f + 1, n => if n = 0 then [] else (n % 1000) :: digits1000 f (n / 1000)

/-- Value of a little-endian base-1000 digit list. -/
def undigits1000 (ds : List Nat) : Nat :=
  ds.foldr (fun d acc => d + 1000 * acc) 0

/-- Characters used for one encoded byte: one char per base-1000 digit. -/
def natChars (n : Nat) : List Char :=
  (digits1000 n n).map (fun d => Char.ofNat (d + 48))

/-- Decode one digit character. -/
def charToDigit (c : Char) : Option Nat :=
  if 48 ≤ c.toNat ∧ c.toNat < 1048 then some (c.toNat - 48) else none

/-- Decode a run of digit characters. -/
def decDigits : List Char → Option (List Nat)
  | [] => some []
  | c :: t => (charToDigit c).bind (fun d => (decDigits t).map (d :: ·))

/-- Decode the character run for one byte. -/
def decNat (cs : List Char) : Option Nat :=
  (decDigits cs).map undigits1000

/-- Encode a byte list as characters, each byte terminated by a dot. -/
def encBytes : List Nat → List Char
  | [] => []
  | n :: t => natChars n ++ '.' :: encBytes t

/-- Split a character list at its first dot. -/
def splitDot : List Char → Option (List Char × List Char)
  | [] => none
  | c :: t =>
    if c = '.' then some ([], t)
    else (splitDot t).map (fun p => (c :: p.1, p.2))

/-- Decoder worker with structural fuel (the fuel bounds the number of
encoded bytes, which is at most the character count). -/
def decBytesGo : Nat → List Char → Option (List Nat)
  | _, [] => some []
  | 0, _ :: _ => none
  | f + 1, c :: t =>
    (splitDot (c :: t)).bind fun p =>
      (decNat p.1).bind fun n => (decBytesGo f p.2).map (n :: ·)

/-- Model of tweetnacl-util encodeBase64. -/
def b64encode (b : List Nat) : String :=
  String.mk (encBytes b)

/-- Model of tweetnacl-util decodeBase64; `none` models the thrown
TypeError invalid encoding. -/
def b64decode (s : String) : Option (List Nat) :=
  decBytesGo s.data.length s.data

/-! ### UTF-8 codec (model of tweetnacl-util decodeUTF8 and encodeUTF8).
Each character is carried as three bytes holding its code in base 256; the
decoder fails on byte sequences whose code groups do not form valid
characters, which models the URIError thrown by encodeUTF8 on byte
sequences that are not well-formed text. -/

/-- Byte group of one character. -/
def charBytes (c : Char) : List Nat :=
  [c.toNat / 65536, c.toNat / 256 % 256, c.toNat % 256]

/-- Model of decodeUTF8: string to bytes. -/
def utf8Encode (s : String) : List Nat :=
  (s.data.map charBytes).flatten

/-- Decode byte groups back to characters; fails on malformed groups. -/
def dec3 : List Nat → Option (List Char)
  | [] => some []
  | b0 :: b1 :: b2 :: t =>
    if _hv : Nat.isValidChar (b0 * 65536 + b1 * 256 + b2) then
      (dec3 t).map (Char.ofNat (b0 * 65536 + b1 * 256 + b2) :: ·)
    else none
  | _ => none

/-- Model of encodeUTF8: bytes to string, `none` models the thrown
URIError URI malformed. -/
def utf8Decode (b : List Nat) : Option String :=
  (dec3 b).map String.mk

/-! ### NaCl box primitive (idealized executable model of tweetnacl
nacl.box, nacl.box.open, nacl.box.keyPair.fromSecretKey and nacl.hash).
The model keeps the shape of the library contract the repository relies on:
key agreement between a secret key and the other side's public key is
commutative and collision-free, and the secretbox is a perfectly
authenticated encryption: opening succeeds exactly on the genuine sealed
bytes for the same key and nonce, and any single changed byte is
rejected. -/

/-- Boolean lexicographic comparison of byte lists, used only to pick a
canonical order of the two key-agreement inputs. -/
def listLe : List Nat → List Nat → Bool
  | [], _ => true
  | _ :: _, [] => false
  | a :: x, b :: y => if a < b then true else if b < a then false else listLe x y

/-- Order-insensitive pairing of the two key-agreement inputs. -/
def sortcat (x y : List Nat) : List Nat :=
  if listLe x y then x ++ y else y ++ x

/-- Model of the public key derived from a 32-byte secret key
(crypto_scalarmult_base). -/
def naclPub (s : List Nat) : List Nat :=
  (s ++ List.replicate 32 0).take 32

/-- Model of the X25519 shared secret of a secret key and the other
side's public key (crypto_box_beforenm). -/
def naclShared (sk otherPk : List Nat) : List Nat :=
  sortcat (naclPub sk) otherPk

/-- Duplicate every element; a sealed box carries each payload byte twice
so that any single changed byte is detected. -/
def dup : List Nat → List Nat
  | [] => []
  | a :: t => a :: a :: dup t

/-- Undo `dup`, failing unless the list is an exact duplication. -/
def undup : List Nat → Option (List Nat)
  | [] => some []
  | [_] => none
  | a :: b :: t => if a = b then (undup t).map (a :: ·) else none

/-- Authenticated header binding the key and nonce into the sealed box. -/
def sealHdr (k n : List Nat) : List Nat :=
  k.length :: k ++ n.length :: n

/-- Model of crypto_secretbox: seal msg under key and nonce. -/
def secretboxSeal (k n m : List Nat) : List Nat :=
  dup (sealHdr k n ++ m)

/-- Model of crypto_secretbox_open: succeeds only on a genuine seal under
the same key and nonce. -/
def secretboxOpen (k n c : List Nat) : Option (List Nat) :=
  (undup c).bind fun e =>
    if e.take (sealHdr k n).length = sealHdr k n
    then some (e.drop (sealHdr k n).length) else none

/-- Model of nacl.box: checks the tweetnacl length contract (32-byte keys,
24-byte nonce) then seals under the agreed shared secret; `none` models
the thrown bad-size errors. -/
def naclBox (m n pk sk : List Nat) : Option (List Nat) :=
  if pk.length = 32 ∧ sk.length = 32 ∧ n.length = 24
  then some (secretboxSeal (naclShared sk pk) n m) else none

/-- Model of nacl.hash (SHA-512): a fixed-length 64-byte digest that is a
function of the input alone. -/
def naclHash (b : List Nat) : List Nat :=
  (b ++ List.replicate 64 7).take 64

/-- Flip bit j of byte i of a byte list. -/
def flipBit (l : List Nat) (i j : Nat) : List Nat :=
  l.set i ((l.getD i 0) ^^^ 2 ^ j)

/-! ### src/lib/crypto.ts -/

/-- Result of encryptMessage (the returned object of base64 strings). -/
structure EncryptedPayload where
  ciphertext : String
  nonce : String
  ephemeralPublicKey : String
deriving DecidableEq

/-- Model of nacl.box.keyPair.fromSecretKey. -/
structure BoxKeyPair where
  publicKey : List Nat
  secretKey : List Nat
deriving DecidableEq

/-- Model of nacl.box.keyPair.fromSecretKey: deterministic keypair from a
32-byte secret. -/
def keyPairFromSecretKey (sk : List Nat) : BoxKeyPair :=
  { publicKey := naclPub sk, secretKey := sk }

/-- Model of nacl.box.open: tweetnacl length checks (thrown errors on the
left) then authenticated open (null on failure). -/
def naclBoxOpen (c n pk sk : List Nat) : Except String (Option (List Nat)) :=
  if pk.length ≠ 32 then Except.error "Error: bad public key size"
  else if sk.length ≠ 32 then Except.error "Error: bad secret key size"
  else if n.length ≠ 24 then Except.error "Error: bad nonce size"
  else Except.ok (secretboxOpen (naclShared sk pk) n c)

/-- encryptMessage from src/lib/crypto.ts lines 26-64. The ephemeral
secret key and the nonce are the randomness the source draws from
nacl.box.keyPair() and nacl.randomBytes, passed here as explicit inputs.
A thrown error is modelled as `Except.error` with the error text. -/
def encryptMessage (message recipientPublicKey : String)
    (ephemeralSecretKey nonceBytes : List Nat) : Except String EncryptedPayload :=
  match b64decode recipientPublicKey with
  | none => Except.error "TypeError: invalid encoding"
  | some recipientPubKeyBytes =>
    if recipientPubKeyBytes.length ≠ 32 then
      Except.error "Invalid recipient public key (must be 32 bytes)"
    else
      let ephemeralKeypair := keyPairFromSecretKey ephemeralSecretKey
      let messageBytes := utf8Encode message
      match naclBox messageBytes nonceBytes recipientPubKeyBytes
          ephemeralKeypair.secretKey with
      | none => Except.error "Error: bad key size"
      | some encrypted =>
        Except.ok
          { ciphertext := b64encode encrypted
            nonce := b64encode nonceBytes
            ephemeralPublicKey := b64encode ephemeralKeypair.publicKey }

/-- decryptMessage from src/lib/crypto.ts lines 69-97: the whole body runs
in a try block whose catch rethrows one Error whose message is the text
Decryption failed followed by the stringified inner error. -/
def decryptMessage (ciphertext nonce ephemeralPublicKey recipientSecretKey :
    String) : Except String String :=
  match b64decode ciphertext with
  | none => Except.error ("Decryption failed: " ++ "TypeError: invalid encoding")
  | some ciphertextBytes =>
  match b64decode nonce with
  | none => Except.error ("Decryption failed: " ++ "TypeError: invalid encoding")
  | some nonceBytes =>
  match b64decode ephemeralPublicKey with
  | none => Except.error ("Decryption failed: " ++ "TypeError: invalid encoding")
  | some ephemeralPubKeyBytes =>
  match b64decode recipientSecretKey with
  | none => Except.error ("Decryption failed: " ++ "TypeError: invalid encoding")
  | some recipientSecretKeyBytes =>
  match naclBoxOpen ciphertextBytes nonceBytes ephemeralPubKeyBytes
      recipientSecretKeyBytes with
  | Except.error e => Except.error ("Decryption failed: " ++ e)
  | Except.ok none =>
    Except.error ("Decryption failed: " ++
      "Error: Decryption failed - invalid key or corrupted data")
  | Except.ok (some decrypted) =>
    match utf8Decode decrypted with
    | none => Except.error ("Decryption failed: " ++ "URIError: URI malformed")
    | some text => Except.ok text

/-- Derived keypair of base64 strings as returned to the caller. -/
structure DerivedKeypair where
  publicKey : String
  secretKey : String
deriving DecidableEq

/-- deriveEncryptionKeyFromSignature from src/lib/crypto.ts lines 117-135.
The wallet signMessage capability is an input function; the await is the
value of that function at the challenge bytes. -/
def deriveEncryptionKeyFromSignature (signMessage : List Nat → List Nat)
    (walletAddress : String) : DerivedKeypair :=
  let message := utf8Encode ("DarkNote encryption key for " ++ walletAddress)
  let signature := signMessage message
  let seed := (naclHash signature).take 32
  let keypair := keyPairFromSecretKey seed
  { publicKey := b64encode keypair.publicKey
    secretKey := b64encode keypair.secretKey }

/-! ### src/lib/db.ts

The notes table keyed by id. Each db function below mirrors one prepared
SQL statement of db.ts; better-sqlite3 runs each statement atomically, and
the Note interface of db.ts is the row shape. -/

/-- Note record (interface Note of src/lib/db.ts). -/
structure Note where
  id : String
  ciphertext : String
  nonce : String
  ephemeralPublicKey : String
  recipientAddress : String
  createdAt : Nat
  selfDestruct : Bool
  maxReads : Option Nat
  currentReads : Nat
deriving DecidableEq

/-- The notes table. The id column is the primary key, so rows of a store
built by createNote have distinct ids. -/
abbrev Store := List Note

/-- getNote (db.ts lines 126-144): SELECT by id, pure read. -/
def getNote (s : Store) (id : String) : Option Note :=
  s.find? (fun n => n.id = id)

/-- Row update applied by the atomic UPDATE of incrementReadCount. -/
def bumpNote (n : Note) : Note :=
  { n with currentReads := n.currentReads + 1 }

/-- incrementReadCount (db.ts lines 149-158): the single atomic UPDATE
currentReads = currentReads + 1 WHERE id = ?; returns changes > 0. -/
def incrementReadCount (s : Store) (id : String) : Store × Bool :=
  (s.map (fun n => if n.id = id then bumpNote n else n),
   s.any (fun n => n.id = id))

/-- deleteNote (db.ts lines 163-172): DELETE WHERE id = ?; returns
changes > 0. -/
def deleteNote (s : Store) (id : String) : Store × Bool :=
  (s.filter (fun n => ¬ n.id = id), s.any (fun n => n.id = id))

/-- createNote (db.ts lines 98-121): INSERT with currentReads 0 and the
current time; the primary key makes the INSERT throw on a duplicate id,
modelled as `none`. -/
def createNote (s : Store) (note : Note) (now : Nat) : Option Store :=
  if s.any (fun n => n.id = note.id) then none
  else some ({ note with createdAt := now, currentReads := 0 } :: s)

/-! ### Route handlers (the lifecycle controller)

Each handler body is synchronous after its awaited params and runs its db
statements back to back on the single Node thread with the synchronous
better-sqlite3 driver, so one invocation is one atomic transition of the
store; concurrent requests are interleavings of these atomic
transitions. -/

/-- Response of the increment route. -/
inductive IncResult where
  | notFound
  | ok (deleted : Bool) (currentReads : Nat)
deriving DecidableEq

/-- POST of src/app/api/notes/[id]/increment/route.ts lines 4-46. -/
def incrementPost (s : Store) (id : String) : Store × IncResult :=
  match getNote s id with
  | none => (s, IncResult.notFound)
  | some note =>
    let s1 := (incrementReadCount s id).1
    match getNote s1 id with
    | some updatedNote =>
      match updatedNote.maxReads with
      | some m =>
        if updatedNote.currentReads ≥ m then
          ((deleteNote s1 id).1, IncResult.ok true updatedNote.currentReads)
        else
          (s1, IncResult.ok false (if updatedNote.currentReads ≠ 0
            then updatedNote.currentReads else note.currentReads + 1))
      | none =>
        (s1, IncResult.ok false (if updatedNote.currentReads ≠ 0
          then updatedNote.currentReads else note.currentReads + 1))
    | none => (s1, IncResult.ok false (note.currentReads + 1))

/-- Public fields returned by the GET route (route.ts lines 111-120). -/
structure NotePublic where
  id : String
  ciphertext : String
  nonce : String
  ephemeralPublicKey : String
  recipientAddress : String
  selfDestruct : Bool
  maxReads : Option Nat
  currentReads : Nat
deriving DecidableEq

/-- Projection of a row onto the GET response fields. -/
def toPublic (n : Note) : NotePublic :=
  { id := n.id, ciphertext := n.ciphertext, nonce := n.nonce
    ephemeralPublicKey := n.ephemeralPublicKey
    recipientAddress := n.recipientAddress, selfDestruct := n.selfDestruct
    maxReads := n.maxReads, currentReads := n.currentReads }

/-- Response of the GET route. -/
inductive FetchResult where
  | notFound
  | found (note : NotePublic)
deriving DecidableEq

/-- GET of src/app/api/notes/route.ts lines 80-128. -/
def notesGet (s : Store) (id : String) : Store × FetchResult :=
  match getNote s id with
  | none => (s, FetchResult.notFound)
  | some note =>
    match note.maxReads with
    | some m =>
      if note.currentReads ≥ m then ((deleteNote s id).1, FetchResult.notFound)
      else (s, FetchResult.found (toPublic note))
    | none => (s, FetchResult.found (toPublic note))

/-- Response of the DELETE route. -/
inductive DelResult where
  | notFound
  | ok
deriving DecidableEq

/-- DELETE of src/app/api/notes/route.ts lines 130-157. -/
def notesDelete (s : Store) (id : String) : Store × DelResult :=
  let r := deleteNote s id
  if r.2 then (r.1, DelResult.ok) else (r.1, DelResult.notFound)

/-- Request body of the create route; the source defaults selfDestruct to
true and maxReads to null at destructuring. -/
structure CreateBody where
  id : String
  ciphertext : String
  nonce : String
  ephemeralPublicKey : String
  recipientAddress : String
  selfDestruct : Bool
  maxReads : Option Nat
deriving DecidableEq

/-- Response of the create route; the badRequest constructors carry which
400 error fired. -/
inductive CreateResult where
  | missingFields
  | invalidAddress
  | tooLarge
  | invalidMaxReads
  | created (noteId : String)
  | serverError
deriving DecidableEq

/-- POST of src/app/api/notes/route.ts lines 5-76. The Solana address
check new PublicKey(recipientAddress) is the external @solana/web3.js
collaborator, passed in as the predicate isValidAddr. -/
def notesPost (isValidAddr : String → Bool) (s : Store) (b : CreateBody)
    (now : Nat) : Store × CreateResult :=
  if b.id = "" ∨ b.ciphertext = "" ∨ b.nonce = "" ∨ b.ephemeralPublicKey = "" ∨
      b.recipientAddress = "" then
    (s, CreateResult.missingFields)
  else if ¬ isValidAddr b.recipientAddress then (s, CreateResult.invalidAddress)
  else if b.ciphertext.length > 100000 then (s, CreateResult.tooLarge)
  else if (match b.maxReads with
    | some m => m < 1 || m > 1000
    | none => false) then (s, CreateResult.invalidMaxReads)
  else
    match createNote s
        { id := b.id, ciphertext := b.ciphertext, nonce := b.nonce
          ephemeralPublicKey := b.ephemeralPublicKey
          recipientAddress := b.recipientAddress, createdAt := 0
          selfDestruct := b.selfDestruct, maxReads := b.maxReads
          currentReads := 0 } now with
    | none => (s, CreateResult.serverError)
    | some s2 => (s2, CreateResult.created b.id)

/-! ### Lifecycle state predicates and runs -/

/-- The per-row read-limit invariant as stated by the spec: currentReads
never exceeds maxReads when maxReads is set. -/
def ReadBound (s : Store) : Prop :=
  ∀ n ∈ s, ∀ m, n.maxReads = some m → n.currentReads ≤ m

/-- The strict internal invariant maintained by the lifecycle routes:
a stored note with a read limit is strictly below it (an exhausted note is
deleted by the route that exhausted it). -/
def StrictBound (s : Store) : Prop :=
  ∀ n ∈ s, ∀ m, n.maxReads = some m → n.currentReads < m

/-- Ids are unique (the primary key of the notes table). -/
def UniqueIds (s : Store) : Prop :=
  (s.map Note.id).Nodup

/-- Well-formedness carried by every store the routes can build. -/
def WF (s : Store) : Prop :=
  UniqueIds s ∧ StrictBound s

/-- Stores observable through the lifecycle operations: everything the
four route handlers can build from the empty table. -/
inductive Reachable : Store → Prop where
  | empty : Reachable []
  | create (v : String → Bool) (b : CreateBody) (now : Nat) {s : Store} :
      Reachable s → Reachable (notesPost v s b now).1
  | fetch (id : String) {s : Store} : Reachable s → Reachable (notesGet s id).1
  | inc (id : String) {s : Store} : Reachable s → Reachable (incrementPost s id).1
  | del (id : String) {s : Store} : Reachable s → Reachable (notesDelete s id).1

/-- Sequential run of k increment route calls on the same id. The calls
are the serialization of k concurrent requests: each handler body is one
atomic transition, so any concurrent schedule is one of these runs. -/
def runInc : Nat → Store → String → Store × List IncResult
  | 0, s, _ => (s, [])
  | k + 1, s, id =>
    let step := incrementPost s id
    let rest := runInc k step.1 id
    (rest.1, step.2 :: rest.2)

/-- Expected replies of a run of k increment calls on a note with limit m
and current count c (with c < m): counts climb one by one, the call that
reaches m destroys, every later call sees not-found. -/
def expectedReplies : Nat → Nat → Nat → List IncResult
  | 0, _, _ => []
  | k + 1, m, c =>
    if c + 1 < m then IncResult.ok false (c + 1) :: expectedReplies k m (c + 1)
    else IncResult.ok true (c + 1) :: List.replicate k IncResult.notFound

/-- Whether an increment reply reports the destruction of the note. -/
def reportsDestroyed : IncResult → Bool
  | IncResult.ok true _ => true
  | _ => false

/-- The one wrapped error text of a failed authenticated open in
decryptMessage. -/
def decryptFailedMsg : String :=
  "Decryption failed: " ++ "Error: Decryption failed - invalid key or corrupted data"

/-- The wrapped error text decryptMessage produces when the opened bytes
are not well-formed text. -/
def invalidEncodingMsg : String :=
  "Decryption failed: " ++ "URIError: URI malformed"

/-- Concrete sample note used to exercise the lifecycle theorems. -/
def mkSampleNote (mr : Option Nat) (cr : Nat) : Note :=
  { id := "n1", ciphertext := "c", nonce := "x", ephemeralPublicKey := "e"
    recipientAddress := "r", createdAt := 0, selfDestruct := true
    maxReads := mr, currentReads := cr }

/-- Concrete sample recipient secret key. -/
def sampleSec1 : List Nat := List.replicate 32 5

/-- Concrete second secret key, distinct from the first. -/
def sampleSec2 : List Nat := List.replicate 32 9

/-- Concrete sample ephemeral secret key. -/
def sampleEph : List Nat := List.replicate 32 3

/-- Concrete sample nonce. -/
def sampleNonce : List Nat := List.replicate 24 1

/-- Sealed bytes of the concrete sample encryption. -/
def sampleCipherBytes : List Nat :=
  secretboxSeal (naclShared sampleEph (naclPub sampleSec1)) sampleNonce
    (utf8Encode "hello")

/-- The concrete sample encrypted payload. -/
def samplePayload : EncryptedPayload :=
  { ciphertext := b64encode sampleCipherBytes
    nonce := b64encode sampleNonce
    ephemeralPublicKey := b64encode (naclPub sampleEph) }

/-- Concrete sample create request body. -/
def sampleBody : CreateBody :=
  { id := "n1", ciphertext := "c", nonce := "x", ephemeralPublicKey := "e"
    recipientAddress := "r", selfDestruct := true, maxReads := some 2 }

/-! ### Library lemmas about the embedded definitions -/

theorem undigits_digits1000 (f : Nat) : ∀ n : Nat, n < 1000 ^ f →
    undigits1000 (digits1000 f n) = n := by
  induction f with
  | zero => intro n hn; simp [digits1000, undigits1000]; omega
  | succ f ih =>
    intro n hn
    by_cases h0 : n = 0
    · simp [digits1000, h0, undigits1000]
    · have hdiv : n / 1000 < 1000 ^ f := by
        rw [Nat.div_lt_iff_lt_mul (by norm_num)]
        calc n < 1000 ^ (f + 1) := hn
        _ = 1000 ^ f * 1000 := by ring
      have := ih (n / 1000) hdiv
      simp only [digits1000, h0, if_false, undigits1000, List.foldr] at *
      rw [this]
      omega

theorem digits1000_lt (f : Nat) : ∀ n : Nat, ∀ d ∈ digits1000 f n, d < 1000 := by
  induction f with
  | zero => intro n d hd; simp [digits1000] at hd
  | succ f ih =>
    intro n d hd
    by_cases h0 : n = 0
    · simp [digits1000, h0] at hd
    · simp only [digits1000, h0, if_false, List.mem_cons] at hd
      rcases hd with h | h
      · subst h; exact Nat.mod_lt _ (by norm_num)
      · exact ih _ _ h

theorem self_lt_thousand_pow (n : Nat) : n < 1000 ^ n := by
  exact Nat.lt_pow_self (by norm_num) n

theorem toNat_charOfNat (n : Nat) (h : n.isValidChar) : (Char.ofNat n).toNat = n := by
  unfold Char.ofNat
  simp only [h, dif_pos]
  rfl

theorem valid_digit_code (d : Nat) (hd : d < 1000) : Nat.isValidChar (d + 48) :=
  Or.inl (by omega)

theorem charToDigit_digit (d : Nat) (hd : d < 1000) :
    charToDigit (Char.ofNat (d + 48)) = some d := by
  unfold charToDigit
  rw [toNat_charOfNat _ (valid_digit_code d hd)]
  rw [if_pos (by omega)]
  have h48 : d + 48 - 48 = d := by omega
  rw [h48]

theorem digit_ne_dot (d : Nat) (hd : d < 1000) : Char.ofNat (d + 48) ≠ '.' := by
  intro h
  have hv := toNat_charOfNat (d + 48) (valid_digit_code d hd)
  rw [h] at hv
  have h46 : ('.').toNat = 46 := rfl
  omega

theorem dot_not_mem_natChars (n : Nat) : '.' ∉ natChars n := by
  unfold natChars
  intro hmem
  rcases List.mem_map.mp hmem with ⟨d, hd, heq⟩
  exact digit_ne_dot d (digits1000_lt n n d hd) heq

theorem decDigits_digits (ds : List Nat) (h : ∀ d ∈ ds, d < 1000) :
    decDigits (ds.map (fun d => Char.ofNat (d + 48))) = some ds := by
  induction ds with
  | nil => rfl
  | cons d t ih =>
    rw [List.map_cons]
    show (charToDigit (Char.ofNat (d + 48))).bind _ = _
    rw [charToDigit_digit d (h d (List.mem_cons_self d t))]
    rw [Option.some_bind, ih (fun x hx => h x (List.mem_cons_of_mem d hx))]
    rfl

theorem decNat_natChars (n : Nat) : decNat (natChars n) = some n := by
  unfold decNat natChars
  rw [decDigits_digits _ (digits1000_lt n n)]
  show some (undigits1000 (digits1000 n n)) = some n
  rw [undigits_digits1000 n n (self_lt_thousand_pow n)]

theorem splitDot_encode (pre post : List Char) (h : '.' ∉ pre) :
    splitDot (pre ++ '.' :: post) = some (pre, post) := by
  induction pre with
  | nil => rfl
  | cons c t ih =>
    have hc : c ≠ '.' := fun he => h (he ▸ List.mem_cons_self c t)
    show (if c = '.' then some ([], t ++ '.' :: post)
      else (splitDot (t ++ '.' :: post)).map (fun p => (c :: p.1, p.2))) = _
    rw [if_neg hc, ih (fun hm => h (List.mem_cons_of_mem c hm))]
    rfl

theorem decBytesGo_encBytes (b : List Nat) : ∀ f : Nat, (encBytes b).length ≤ f →
    decBytesGo f (encBytes b) = some b := by
  induction b with
  | nil => intro f _; cases f <;> rfl
  | cons n t ih =>
    intro f hf
    have hlen : (encBytes (n :: t)).length =
        (natChars n).length + 1 + (encBytes t).length := by
      simp [encBytes]
      omega
    rcases f with _ | f
    · omega
    · show decBytesGo (f + 1) (natChars n ++ '.' :: encBytes t) = some (n :: t)
      rcases hsh : natChars n ++ '.' :: encBytes t with _ | ⟨c, rest⟩
      · exact absurd hsh (by simp)
      · have hsplit : splitDot (natChars n ++ '.' :: encBytes t) =
            some (natChars n, encBytes t) :=
          splitDot_encode _ _ (dot_not_mem_natChars n)
        rw [hsh] at hsplit
        show (splitDot (c :: rest)).bind _ = _
        rw [hsplit, Option.some_bind, decNat_natChars n, Option.some_bind,
          ih f (by omega)]
        rfl

theorem b64_roundtrip (b : List Nat) : b64decode (b64encode b) = some b := by
  unfold b64decode b64encode
  exact decBytesGo_encBytes b _ (Nat.le_refl _)

theorem dec3_charBytes (cs : List Char) : dec3 (cs.map charBytes).flatten = some cs := by
  induction cs with
  | nil => rfl
  | cons c t ih =>
    show dec3 (charBytes c ++ (t.map charBytes).flatten) = some (c :: t)
    have hcode : c.toNat / 65536 * 65536 + c.toNat / 256 % 256 * 256 + c.toNat % 256 =
        c.toNat := by omega
    simp only [charBytes, List.cons_append, List.nil_append, dec3, hcode]
    rw [dif_pos (show Nat.isValidChar c.toNat from c.valid)]
    show Option.map _ (dec3 (t.map charBytes).flatten) = _
    rw [ih, Char.ofNat_toNat]
    rfl

theorem utf8_roundtrip (s : String) : utf8Decode (utf8Encode s) = some s := by
  unfold utf8Decode utf8Encode
  rw [dec3_charBytes]
  rfl

theorem naclPub_length (s : List Nat) : (naclPub s).length = 32 := by
  unfold naclPub
  rw [List.length_take, List.length_append, List.length_replicate]
  omega

theorem naclPub_of_len32 (s : List Nat) (h : s.length = 32) : naclPub s = s := by
  unfold naclPub
  rw [List.take_append_of_le_length (by omega), ← h, List.take_length]

theorem naclHash_length (b : List Nat) : (naclHash b).length = 64 := by
  unfold naclHash
  rw [List.length_take, List.length_append, List.length_replicate]
  omega

theorem listLe_antisymm : ∀ x y : List Nat, listLe x y = true → listLe y x = true → x = y := by
  intro x
  induction x with
  | nil => intro y _ hyx; cases y with
    | nil => rfl
    | cons b t => simp [listLe] at hyx
  | cons a s ih =>
    intro y hxy hyx
    cases y with
    | nil => simp [listLe] at hxy
    | cons b t =>
      by_cases hab : a < b
      · have : listLe (b :: t) (a :: s) = false := by
          have hba : ¬ b < a := by omega
          simp [listLe, hab, hba]
        rw [this] at hyx; cases hyx
      · by_cases hba : b < a
        · have : listLe (a :: s) (b :: t) = false := by simp [listLe, hab, hba]
          rw [this] at hxy; cases hxy
        · have hab2 : a = b := by omega
          subst hab2
          have hxy2 : listLe s t = true := by simpa [listLe] using hxy
          have hyx2 : listLe t s = true := by simpa [listLe] using hyx
          rw [ih t hxy2 hyx2]

theorem listLe_total : ∀ x y : List Nat, listLe x y = false → listLe y x = true := by
  intro x
  induction x with
  | nil => intro y h; simp [listLe] at h
  | cons a s ih =>
    intro y h
    cases y with
    | nil => simp [listLe]
    | cons b t =>
      by_cases hab : a < b
      · simp [listLe, hab] at h
      · by_cases hba : b < a
        · simp [listLe, hba]
        · have hab2 : a = b := by omega
          subst hab2
          have h2 : listLe s t = false := by simpa [listLe] using h
          have := ih t h2
          simpa [listLe] using this

theorem sortcat_comm (x y : List Nat) : sortcat x y = sortcat y x := by
  unfold sortcat
  by_cases hxy : listLe x y = true
  · by_cases hyx : listLe y x = true
    · rw [if_pos hxy, if_pos hyx, listLe_antisymm x y hxy hyx]
    · rw [if_pos hxy, if_neg hyx]
  · have hxyf : listLe x y = false := by
      cases hb : listLe x y
      · rfl
      · exact absurd hb hxy
    rw [if_neg hxy, if_pos (listLe_total x y hxyf)]

theorem naclShared_comm (a b : List Nat) :
    naclShared a (naclPub b) = naclShared b (naclPub a) := by
  unfold naclShared
  exact sortcat_comm (naclPub a) (naclPub b)

theorem sortcat_inj_left (x x' y : List Nat) (hx : x.length = 32)
    (hx' : x'.length = 32) (hy : y.length = 32) (hne : x ≠ x') :
    sortcat x y ≠ sortcat x' y := by
  intro heq
  unfold sortcat at heq
  by_cases h1 : listLe x y = true
  · rw [if_pos h1] at heq
    by_cases h2 : listLe x' y = true
    · rw [if_pos h2] at heq
      exact hne (List.append_inj heq (by omega)).1
    · rw [if_neg h2] at heq
      have e := List.append_inj heq (by omega)
      exact hne (e.1.trans e.2)
  · rw [if_neg h1] at heq
    by_cases h2 : listLe x' y = true
    · rw [if_pos h2] at heq
      have e := List.append_inj heq (by omega)
      exact hne (e.2.trans e.1)
    · rw [if_neg h2] at heq
      exact hne (List.append_inj heq (by omega)).2

theorem sortcat_inj_right (x y y' : List Nat) (hx : x.length = 32)
    (hy : y.length = 32) (hy' : y'.length = 32) (hne : y ≠ y') :
    sortcat x y ≠ sortcat x y' := by
  intro heq
  unfold sortcat at heq
  by_cases h1 : listLe x y = true
  · rw [if_pos h1] at heq
    by_cases h2 : listLe x y' = true
    · rw [if_pos h2] at heq
      exact hne (List.append_inj heq (by omega)).2
    · rw [if_neg h2] at heq
      have e := List.append_inj heq (by omega)
      exact hne (e.2.trans e.1)
  · rw [if_neg h1] at heq
    by_cases h2 : listLe x y' = true
    · rw [if_pos h2] at heq
      have e := List.append_inj heq (by omega)
      exact hne (e.1.trans e.2)
    · rw [if_neg h2] at heq
      exact hne (List.append_inj heq (by omega)).1

theorem naclShared_length (a b : List Nat) (hb : b.length = 32) :
    (naclShared a b).length = 64 := by
  unfold naclShared sortcat
  by_cases h : listLe (naclPub a) b <;>
    simp [h, List.length_append, naclPub_length, hb]

theorem undup_dup (xs : List Nat) : undup (dup xs) = some xs := by
  induction xs with
  | nil => rfl
  | cons a t ih => simp [dup, undup, ih]

theorem undup_dup_set (xs : List Nat) : ∀ i v, i < (dup xs).length →
    v ≠ (dup xs).getD i 0 → undup ((dup xs).set i v) = none := by
  induction xs with
  | nil => intro i v hi _; simp [dup] at hi
  | cons a t ih =>
    intro i v hi hne
    match i with
    | 0 =>
      have : (dup (a :: t)).getD 0 0 = a := rfl
      rw [this] at hne
      simp [dup, List.set, undup, hne]
    | 1 =>
      have : (dup (a :: t)).getD 1 0 = a := rfl
      rw [this] at hne
      simp [dup, List.set, undup]
      intro h
      exact absurd h.symm hne
    | Nat.succ (Nat.succ k) =>
      have hk : k < (dup t).length := by
        simp [dup] at hi
        omega
      have hg : (dup (a :: t)).getD (k + 2) 0 = (dup t).getD k 0 := rfl
      rw [hg] at hne
      have := ih k v hk hne
      simp [dup, List.set, undup, this]

theorem xor_pow_ne (a j : Nat) : a ^^^ 2 ^ j ≠ a := by
  intro h
  have h2 : a ^^^ (a ^^^ 2 ^ j) = a ^^^ a := by rw [h]
  rw [← Nat.xor_assoc, Nat.xor_self, Nat.zero_xor] at h2
  have := Nat.two_pow_pos j
  omega

theorem secretboxOpen_seal (k n m : List Nat) :
    secretboxOpen k n (secretboxSeal k n m) = some m := by
  unfold secretboxOpen secretboxSeal
  rw [undup_dup, Option.some_bind, if_pos (List.take_left _ _), List.drop_left]

theorem sealHdr_inj (k k' n n' : List Nat) (hk : k'.length = k.length)
    (h : sealHdr k' n' = sealHdr k n) : k' = k ∧ n' = n := by
  unfold sealHdr at h
  injection h with hl ht
  have h3 := (List.append_inj ht (by omega)).1
  have h4 := (List.append_inj ht (by omega)).2
  injection h4 with hl2 ht2
  exact ⟨h3, ht2⟩

theorem secretboxOpen_wrong (k k' n n' m : List Nat) (hk : k'.length = k.length)
    (hn : n'.length = n.length) (hne : k' ≠ k ∨ n' ≠ n) :
    secretboxOpen k' n' (secretboxSeal k n m) = none := by
  unfold secretboxOpen secretboxSeal
  rw [undup_dup, Option.some_bind]
  have hlen : (sealHdr k' n').length = (sealHdr k n).length := by
    unfold sealHdr
    simp [List.length_append, hk, hn]
  rw [if_neg]
  intro htake
  rw [hlen, List.take_left] at htake
  rcases sealHdr_inj k k' n n' hk htake.symm with ⟨e1, e2⟩
  rcases hne with h | h
  · exact h e1
  · exact h e2

theorem secretboxOpen_flip (k2 n2 k n m : List Nat) (i j : Nat)
    (hi : i < (secretboxSeal k n m).length) :
    secretboxOpen k2 n2 (flipBit (secretboxSeal k n m) i j) = none := by
  unfold secretboxOpen secretboxSeal flipBit
  unfold secretboxSeal at hi
  rw [undup_dup_set (sealHdr k n ++ m) i _ hi (xor_pow_ne _ j)]
  rfl

theorem getNote_mem (s : Store) (id : String) (note : Note)
    (h : getNote s id = some note) : note ∈ s ∧ note.id = id := by
  refine ⟨List.mem_of_find?_eq_some h, ?_⟩
  have := List.find?_some h
  simpa using this

theorem bumpNote_id (n : Note) : (bumpNote n).id = n.id := rfl

theorem bumpNote_maxReads (n : Note) : (bumpNote n).maxReads = n.maxReads := rfl

theorem bumpNote_currentReads (n : Note) :
    (bumpNote n).currentReads = n.currentReads + 1 := rfl

theorem getNote_inc (s : Store) (id : String) :
    getNote (incrementReadCount s id).1 id = (getNote s id).map bumpNote := by
  unfold getNote incrementReadCount
  induction s with
  | nil => rfl
  | cons a t ih =>
    by_cases ha : a.id = id
    · simp [List.find?_cons, ha, bumpNote_id]
    · simp only [List.map_cons, List.find?_cons, if_neg ha]
      have h1 : (decide (a.id = id)) = false := by simp [ha]
      rw [h1]
      simpa using ih

theorem getNote_delete (s : Store) (id : String) :
    getNote (deleteNote s id).1 id = none := by
  unfold getNote deleteNote
  rw [List.find?_eq_none]
  intro x hx
  rcases List.mem_filter.mp hx with ⟨_, hpred⟩
  simpa using hpred

theorem incStore_ids (s : Store) (id : String) :
    ((incrementReadCount s id).1).map Note.id = s.map Note.id := by
  unfold incrementReadCount
  rw [List.map_map]
  apply List.map_congr_left
  intro a _
  by_cases ha : a.id = id <;> simp [ha, bumpNote_id]

theorem mem_incStore (s : Store) (id : String) (x : Note)
    (hx : x ∈ (incrementReadCount s id).1) :
    ∃ n ∈ s, x = if n.id = id then bumpNote n else n := by
  unfold incrementReadCount at hx
  rcases List.mem_map.mp hx with ⟨n, hn, heq⟩
  exact ⟨n, hn, heq.symm⟩

theorem mem_delStore (s : Store) (id : String) (x : Note)
    (hx : x ∈ (deleteNote s id).1) : x ∈ s ∧ x.id ≠ id := by
  unfold deleteNote at hx
  rcases List.mem_filter.mp hx with ⟨h1, h2⟩
  exact ⟨h1, by simpa using h2⟩

theorem unique_note (s : Store) (id : String) (hu : UniqueIds s) (note n : Note)
    (hfind : getNote s id = some note) (hn : n ∈ s) (hid : n.id = id) :
    n = note := by
  unfold getNote at hfind
  induction s with
  | nil => cases hn
  | cons a t ih =>
    rcases List.nodup_cons.mp hu with ⟨hnotin, hu2⟩
    by_cases ha : a.id = id
    · have hfa : List.find? (fun x => x.id = id) (a :: t) = some a := by
        simp [List.find?_cons, ha]
      rw [hfa] at hfind
      injection hfind with hfind
      subst hfind
      rcases List.mem_cons.mp hn with h | h
      · exact h
      · have hmem : n.id ∈ List.map Note.id t := List.mem_map_of_mem Note.id h
        rw [hid, ← ha] at hmem
        exact absurd hmem hnotin
    · have hfa : List.find? (fun x => x.id = id) (a :: t) =
          List.find? (fun x => x.id = id) t := by
        simp [List.find?_cons, ha]
      rw [hfa] at hfind
      rcases List.mem_cons.mp hn with h | h
      · exact absurd (h ▸ hid) ha
      · exact ih hu2 hfind h

theorem delStore_sublist (s : Store) (id : String) :
    (deleteNote s id).1.Sublist s :=
  List.filter_sublist s

theorem UniqueIds_delete (s : Store) (id : String) (h : UniqueIds s) :
    UniqueIds (deleteNote s id).1 :=
  List.Nodup.sublist (List.Sublist.map Note.id (delStore_sublist s id)) h

theorem UniqueIds_inc (s : Store) (id : String) (h : UniqueIds s) :
    UniqueIds (incrementReadCount s id).1 := by
  unfold UniqueIds
  rw [incStore_ids]
  exact h

theorem incrementPost_absent (s : Store) (id : String)
    (h : getNote s id = none) : incrementPost s id = (s, IncResult.notFound) := by
  unfold incrementPost
  rw [h]

theorem incrementPost_nolimit (s : Store) (id : String) (note : Note)
    (h : getNote s id = some note) (hm : note.maxReads = none) :
    incrementPost s id =
      ((incrementReadCount s id).1, IncResult.ok false (note.currentReads + 1)) := by
  simp only [incrementPost, h, getNote_inc, Option.map_some, Option.map_some',
    bumpNote_maxReads,
    hm, bumpNote_currentReads, ite_self]

theorem incrementPost_alive (s : Store) (id : String) (note : Note) (m : Nat)
    (h : getNote s id = some note) (hm : note.maxReads = some m)
    (hc : note.currentReads + 1 < m) :
    incrementPost s id =
      ((incrementReadCount s id).1, IncResult.ok false (note.currentReads + 1)) := by
  simp only [incrementPost, h, getNote_inc, Option.map_some, Option.map_some',
    bumpNote_maxReads,
    hm, bumpNote_currentReads, ite_self]
  rw [if_neg (by omega)]

theorem incrementPost_kill (s : Store) (id : String) (note : Note) (m : Nat)
    (h : getNote s id = some note) (hm : note.maxReads = some m)
    (hc : note.currentReads + 1 ≥ m) :
    incrementPost s id =
      ((deleteNote (incrementReadCount s id).1 id).1,
       IncResult.ok true (note.currentReads + 1)) := by
  simp only [incrementPost, h, getNote_inc, Option.map_some, Option.map_some',
    bumpNote_maxReads,
    hm, bumpNote_currentReads]
  rw [if_pos (by omega)]

theorem notesGet_absent (s : Store) (id : String)
    (h : getNote s id = none) : notesGet s id = (s, FetchResult.notFound) := by
  unfold notesGet
  rw [h]

theorem notesGet_nolimit (s : Store) (id : String) (note : Note)
    (h : getNote s id = some note) (hm : note.maxReads = none) :
    notesGet s id = (s, FetchResult.found (toPublic note)) := by
  simp only [notesGet, h, hm]

theorem notesGet_alive (s : Store) (id : String) (note : Note) (m : Nat)
    (h : getNote s id = some note) (hm : note.maxReads = some m)
    (hc : note.currentReads < m) :
    notesGet s id = (s, FetchResult.found (toPublic note)) := by
  simp only [notesGet, h, hm]
  rw [if_neg (by omega)]

theorem notesGet_exhausted (s : Store) (id : String) (note : Note) (m : Nat)
    (h : getNote s id = some note) (hm : note.maxReads = some m)
    (hc : note.currentReads ≥ m) :
    notesGet s id = ((deleteNote s id).1, FetchResult.notFound) := by
  simp only [notesGet, h, hm]
  rw [if_pos (by omega)]

theorem notesDelete_present (s : Store) (id : String) (note : Note)
    (h : getNote s id = some note) :
    notesDelete s id = ((deleteNote s id).1, DelResult.ok) := by
  rcases getNote_mem s id note h with ⟨hmem, hid⟩
  have hany : (deleteNote s id).2 = true := by
    unfold deleteNote
    simp only [List.any_eq_true]
    exact ⟨note, hmem, by simpa using hid⟩
  simp only [notesDelete, hany, ite_true]

theorem notesDelete_absent (s : Store) (id : String)
    (h : getNote s id = none) : notesDelete s id = (s, DelResult.notFound) := by
  unfold getNote at h
  rw [List.find?_eq_none] at h
  have hany : (deleteNote s id).2 = false := by
    unfold deleteNote
    simp only [List.any_eq_false]
    intro x hx
    simpa using h x hx
  have hfilter : (deleteNote s id).1 = s := by
    unfold deleteNote
    apply List.filter_eq_self.mpr
    intro x hx
    simpa using h x hx
  simp only [notesDelete, hany, hfilter]
  rfl

theorem StrictBound_delete (s : Store) (id : String) (h : StrictBound s) :
    StrictBound (deleteNote s id).1 :=
  fun n hn => h n (mem_delStore s id n hn).1

theorem WF_delete (s : Store) (id : String) (h : WF s) : WF (deleteNote s id).1 :=
  ⟨UniqueIds_delete s id h.1, StrictBound_delete s id h.2⟩

theorem StrictBound_incDel (s : Store) (id : String) (h : StrictBound s) :
    StrictBound (deleteNote (incrementReadCount s id).1 id).1 := by
  intro n hn m hm
  rcases mem_delStore _ id n hn with ⟨hmem, hne⟩
  rcases mem_incStore s id n hmem with ⟨n0, hn0, heq⟩
  by_cases h0 : n0.id = id
  · rw [if_pos h0] at heq
    rw [heq, bumpNote_id] at hne
    exact absurd h0 hne
  · rw [if_neg h0] at heq
    rw [heq] at hm ⊢
    exact h n0 hn0 m hm

theorem StrictBound_inc (s : Store) (id : String) (note : Note)
    (hu : UniqueIds s) (hs : StrictBound s) (hg : getNote s id = some note)
    (hok : ∀ m, note.maxReads = some m → note.currentReads + 1 < m) :
    StrictBound (incrementReadCount s id).1 := by
  intro n hn m hm
  rcases mem_incStore s id n hn with ⟨n0, hn0, heq⟩
  by_cases h0 : n0.id = id
  · rw [if_pos h0] at heq
    have hn0note : n0 = note := unique_note s id hu note n0 hg hn0 h0
    subst hn0note
    subst heq
    rw [bumpNote_maxReads] at hm
    rw [bumpNote_currentReads]
    exact hok m hm
  · rw [if_neg h0] at heq
    rw [heq] at hm ⊢
    exact hs n0 hn0 m hm

theorem WF_incPost (s : Store) (id : String) (h : WF s) :
    WF (incrementPost s id).1 := by
  rcases hg : getNote s id with _ | note
  · rw [incrementPost_absent s id hg]
    exact h
  · rcases hm : note.maxReads with _ | m
    · rw [incrementPost_nolimit s id note hg hm]
      refine ⟨UniqueIds_inc s id h.1, ?_⟩
      apply StrictBound_inc s id note h.1 h.2 hg
      intro m2 hm2
      rw [hm] at hm2
      cases hm2
    · by_cases hc : note.currentReads + 1 < m
      · rw [incrementPost_alive s id note m hg hm hc]
        refine ⟨UniqueIds_inc s id h.1, ?_⟩
        apply StrictBound_inc s id note h.1 h.2 hg
        intro m2 hm2
        rw [hm] at hm2
        injection hm2 with hm2
        omega
      · rw [incrementPost_kill s id note m hg hm (by omega)]
        exact ⟨UniqueIds_delete _ id (UniqueIds_inc s id h.1),
          StrictBound_incDel s id h.2⟩

theorem WF_notesGet (s : Store) (id : String) (h : WF s) :
    WF (notesGet s id).1 := by
  rcases hg : getNote s id with _ | note
  · rw [notesGet_absent s id hg]
    exact h
  · rcases hm : note.maxReads with _ | m
    · rw [notesGet_nolimit s id note hg hm]
      exact h
    · by_cases hc : note.currentReads ≥ m
      · rw [notesGet_exhausted s id note m hg hm hc]
        exact WF_delete s id h
      · rw [notesGet_alive s id note m hg hm (by omega)]
        exact h

theorem WF_notesDelete (s : Store) (id : String) (h : WF s) :
    WF (notesDelete s id).1 := by
  rcases hg : getNote s id with _ | note
  · rw [notesDelete_absent s id hg]
    exact h
  · rw [notesDelete_present s id note hg]
    exact WF_delete s id h

theorem WF_notesPost (v : String → Bool) (s : Store) (b : CreateBody)
    (now : Nat) (h : WF s) : WF (notesPost v s b now).1 := by
  unfold notesPost
  by_cases h1 : (b.id = "" ∨ b.ciphertext = "" ∨ b.nonce = "" ∨
      b.ephemeralPublicKey = "" ∨ b.recipientAddress = "")
  · rw [if_pos h1]
    exact h
  · rw [if_neg h1]
    by_cases h2 : v b.recipientAddress = true
    · rw [if_neg (not_not_intro h2)]
      by_cases h3 : b.ciphertext.length > 100000
      · rw [if_pos h3]
        exact h
      · rw [if_neg h3]
        rcases hmx : b.maxReads with _ | m
        · rw [if_neg (by simp)]
          rcases hcr : createNote s
              { id := b.id, ciphertext := b.ciphertext, nonce := b.nonce
                ephemeralPublicKey := b.ephemeralPublicKey
                recipientAddress := b.recipientAddress, createdAt := 0
                selfDestruct := b.selfDestruct, maxReads := none
                currentReads := 0 } now with _ | s2
          · exact h
          · show WF s2
            unfold createNote at hcr
            by_cases hdup : s.any (fun n => n.id = b.id) = true
            · rw [if_pos (by simpa using hdup)] at hcr
              cases hcr
            · rw [if_neg (by simpa using hdup)] at hcr
              injection hcr with hcr
              subst hcr
              constructor
              · refine List.nodup_cons.mpr ⟨?_, h.1⟩
                intro hmem
                apply hdup
                rw [List.any_eq_true]
                rcases List.mem_map.mp hmem with ⟨n, hn, hid⟩
                exact ⟨n, hn, by simpa using hid⟩
              · intro n hn m2 hm2
                rcases List.mem_cons.mp hn with hcase | hcase
                · subst hcase
                  cases hm2
                · exact h.2 n hcase m2 hm2
        · by_cases hval : m < 1 ∨ m > 1000
          · rw [if_pos (by simp [hmx]; omega)]
            exact h
          · rw [if_neg (by simp [hmx]; omega)]
            rcases hcr : createNote s
                { id := b.id, ciphertext := b.ciphertext, nonce := b.nonce
                  ephemeralPublicKey := b.ephemeralPublicKey
                  recipientAddress := b.recipientAddress, createdAt := 0
                  selfDestruct := b.selfDestruct, maxReads := some m
                  currentReads := 0 } now with _ | s2
            · exact h
            · show WF s2
              unfold createNote at hcr
              by_cases hdup : s.any (fun n => n.id = b.id) = true
              · rw [if_pos (by simpa using hdup)] at hcr
                cases hcr
              · rw [if_neg (by simpa using hdup)] at hcr
                injection hcr with hcr
                subst hcr
                constructor
                · refine List.nodup_cons.mpr ⟨?_, h.1⟩
                  intro hmem
                  apply hdup
                  rw [List.any_eq_true]
                  rcases List.mem_map.mp hmem with ⟨n, hn, hid⟩
                  exact ⟨n, hn, by simpa using hid⟩
                · intro n hn m2 hm2
                  rcases List.mem_cons.mp hn with hcase | hcase
                  · subst hcase
                    have he : some m = some m2 := hm2
                    injection he with he
                    show (0 : Nat) < m2
                    omega
                  · exact h.2 n hcase m2 hm2
    · rw [if_pos (by simpa using h2)]
      exact h

theorem WF_reachable (s : Store) (h : Reachable s) : WF s := by
  induction h with
  | empty => exact ⟨List.nodup_nil, fun n hn => absurd hn (List.not_mem_nil n)⟩
  | create v b now _ ih => exact WF_notesPost v _ b now ih
  | fetch id _ ih => exact WF_notesGet _ id ih
  | inc id _ ih => exact WF_incPost _ id ih
  | del id _ ih => exact WF_notesDelete _ id ih

theorem runInc_dead (id : String) : ∀ (k : Nat) (s : Store),
    getNote s id = none →
    runInc k s id = (s, List.replicate k IncResult.notFound) := by
  intro k
  induction k with
  | zero => intro s _; rfl
  | succ k ih =>
    intro s h
    simp only [runInc, incrementPost_absent s id h, ih s h, List.replicate_succ]

theorem getNote_inc_some (s : Store) (id : String) (note : Note)
    (h : getNote s id = some note) :
    getNote (incrementReadCount s id).1 id = some (bumpNote note) := by
  rw [getNote_inc, h]
  rfl

theorem runInc_live (id : String) (m : Nat) : ∀ (k : Nat) (s : Store) (note : Note),
    getNote s id = some note → note.maxReads = some m →
    note.currentReads < m →
    (runInc k s id).2 = expectedReplies k m note.currentReads ∧
    (m ≤ note.currentReads + k → getNote (runInc k s id).1 id = none) := by
  intro k
  induction k with
  | zero =>
    intro s note hg hm hc
    exact ⟨rfl, fun hk => absurd hk (by omega)⟩
  | succ k ih =>
    intro s note hg hm hc
    by_cases hstep : note.currentReads + 1 < m
    · have hpost := incrementPost_alive s id note m hg hm hstep
      have hg2 := getNote_inc_some s id note hg
      have hrec := ih (incrementReadCount s id).1 (bumpNote note) hg2
        (by rw [bumpNote_maxReads]; exact hm)
        (by rw [bumpNote_currentReads]; omega)
      constructor
      · simp only [runInc, hpost, expectedReplies, if_pos hstep]
        rw [hrec.1, bumpNote_currentReads]
      · intro hk
        simp only [runInc, hpost]
        exact hrec.2 (by rw [bumpNote_currentReads]; omega)
    · have hkill := incrementPost_kill s id note m hg hm (by omega)
      have hdead : getNote (deleteNote (incrementReadCount s id).1 id).1 id =
          none := getNote_delete _ id
      have hrun := runInc_dead id k _ hdead
      constructor
      · simp only [runInc, hkill, hrun, expectedReplies, if_neg hstep]
      · intro _
        simp only [runInc, hkill, hrun]
        exact hdead

theorem flipBit_length (l : List Nat) (i j : Nat) :
    (flipBit l i j).length = l.length := by
  unfold flipBit
  exact List.length_set l i _

theorem flipBit_ne (l : List Nat) (i j : Nat) (hi : i < l.length) :
    flipBit l i j ≠ l := by
  intro h
  have hset : i < (l.set i (l.getD i 0 ^^^ 2 ^ j)).length := by
    rw [List.length_set]
    exact hi
  have h1 : (l.set i (l.getD i 0 ^^^ 2 ^ j)).getD i 0 = l.getD i 0 ^^^ 2 ^ j := by
    rw [List.getD_eq_getElem _ 0 hset]
    exact List.getElem_set_self _
  unfold flipBit at h
  rw [h] at h1
  exact xor_pow_ne (l.getD i 0) j h1.symm

/-- C1: for a note with maxReads 50 and currentReads 0, any serialization
of 100 increment route calls (each handler body is one atomic transition
of the sqlite store, and the only counter write in it is the single atomic
UPDATE of incrementReadCount) yields replies climbing 1..49 undestroyed,
one reply that destroys at exactly 50, and 51..100 not-found; the note
ends absent, exactly one reply reports destruction, and no increment is
lost. -/
theorem claim_C1 (s : Store) (id : String) (note : Note)
    (hg : getNote s id = some note) (hm : note.maxReads = some 50)
    (hc : note.currentReads = 0) :
    (runInc 100 s id).2 =
      (List.range 49).map (fun k => IncResult.ok false (k + 1)) ++
        IncResult.ok true 50 :: List.replicate 50 IncResult.notFound ∧
    getNote (runInc 100 s id).1 id = none ∧
    ((runInc 100 s id).2.countP reportsDestroyed) = 1 := by
  have h := runInc_live id 50 100 s note hg hm (by omega)
  have h1 : (runInc 100 s id).2 = expectedReplies 100 50 0 := by
    rw [h.1, hc]
  have hexp : expectedReplies 100 50 0 =
      (List.range 49).map (fun k => IncResult.ok false (k + 1)) ++
        IncResult.ok true 50 :: List.replicate 50 IncResult.notFound := by
    decide
  refine ⟨h1.trans hexp, h.2 (by omega), ?_⟩
  rw [h1, hexp]
  decide

/-- C1 witness: the theorem applied to the concrete one-note store. -/
theorem claim_C1_witness :
    (runInc 100 [mkSampleNote (some 50) 0] "n1").2 =
      (List.range 49).map (fun k => IncResult.ok false (k + 1)) ++
        IncResult.ok true 50 :: List.replicate 50 IncResult.notFound ∧
    getNote (runInc 100 [mkSampleNote (some 50) 0] "n1").1 "n1" = none ∧
    ((runInc 100 [mkSampleNote (some 50) 0] "n1").2.countP reportsDestroyed) = 1 :=
  claim_C1 [mkSampleNote (some 50) 0] "n1" (mkSampleNote (some 50) 0)
    (by decide) (by decide) (by decide)

theorem toPublic_maxReads (n : Note) : (toPublic n).maxReads = n.maxReads := rfl

theorem toPublic_currentReads (n : Note) :
    (toPublic n).currentReads = n.currentReads := rfl

/-- C2: on every store observable through the lifecycle operations
(create, fetch, increment, delete, starting from the empty table) every
stored note with a read limit satisfies currentReads at most maxReads, the
increment route never reports a count above the limit of the note it
incremented, and the fetch route never returns a note whose count exceeds
its limit. -/
theorem claim_C2 (s : Store) (h : Reachable s) :
    ReadBound s ∧
    (∀ id note m d c, getNote s id = some note → note.maxReads = some m →
      (incrementPost s id).2 = IncResult.ok d c → c ≤ m) ∧
    (∀ id p m, (notesGet s id).2 = FetchResult.found p → p.maxReads = some m →
      p.currentReads ≤ m) := by
  have hwf := WF_reachable s h
  refine ⟨fun n hn m hm => Nat.le_of_lt (hwf.2 n hn m hm), ?_, ?_⟩
  · intro id note m d c hg hm hr
    have hlt := hwf.2 note (getNote_mem s id note hg).1 m hm
    by_cases hstep : note.currentReads + 1 < m
    · rw [incrementPost_alive s id note m hg hm hstep] at hr
      have hr2 : IncResult.ok false (note.currentReads + 1) = IncResult.ok d c := hr
      injection hr2 with _ h2
      omega
    · rw [incrementPost_kill s id note m hg hm (by omega)] at hr
      have hr2 : IncResult.ok true (note.currentReads + 1) = IncResult.ok d c := hr
      injection hr2 with _ h2
      omega
  · intro id p m hg hm
    rcases hgn : getNote s id with _ | note
    · rw [notesGet_absent s id hgn] at hg
      cases hg
    · rcases hmx : note.maxReads with _ | m0
      · rw [notesGet_nolimit s id note hgn hmx] at hg
        have hg2 : FetchResult.found (toPublic note) = FetchResult.found p := hg
        injection hg2 with hg2
        rw [← hg2, toPublic_maxReads, hmx] at hm
        cases hm
      · by_cases hc : note.currentReads ≥ m0
        · rw [notesGet_exhausted s id note m0 hgn hmx hc] at hg
          cases hg
        · rw [notesGet_alive s id note m0 hgn hmx (by omega)] at hg
          have hg2 : FetchResult.found (toPublic note) = FetchResult.found p := hg
          injection hg2 with hg2
          rw [← hg2, toPublic_maxReads, hmx] at hm
          injection hm with hm
          rw [← hg2, toPublic_currentReads]
          omega

/-- C2 witness: the theorem applied to the store reached by one create
call. -/
theorem claim_C2_witness :
    ReadBound (notesPost (fun _ => true) [] sampleBody 7).1 ∧
    (∀ id note m d c,
      getNote (notesPost (fun _ => true) [] sampleBody 7).1 id = some note →
      note.maxReads = some m →
      (incrementPost (notesPost (fun _ => true) [] sampleBody 7).1 id).2 =
        IncResult.ok d c → c ≤ m) ∧
    (∀ id p m,
      (notesGet (notesPost (fun _ => true) [] sampleBody 7).1 id).2 =
        FetchResult.found p → p.maxReads = some m → p.currentReads ≤ m) :=
  claim_C2 (notesPost (fun _ => true) [] sampleBody 7).1
    (Reachable.create (fun _ => true) sampleBody 7 Reachable.empty)

/-- C3: the increment route fails with not-found when the note is absent;
otherwise it reports the post-increment count, destroying the note exactly
when that count reaches the limit; and the maxReads 2 scenario: the first
call reports undestroyed count 1 leaving the note fetchable, the second
reports destroyed count 2, after which fetch reports not-found. -/
theorem claim_C3 (s : Store) (id : String) :
    (getNote s id = none → incrementPost s id = (s, IncResult.notFound)) ∧
    (∀ note m, getNote s id = some note → note.maxReads = some m →
      (note.currentReads + 1 ≥ m →
        incrementPost s id =
          ((deleteNote (incrementReadCount s id).1 id).1,
           IncResult.ok true (note.currentReads + 1))) ∧
      (note.currentReads + 1 < m →
        incrementPost s id =
          ((incrementReadCount s id).1,
           IncResult.ok false (note.currentReads + 1)))) ∧
    (∀ note, getNote s id = some note → note.maxReads = none →
      incrementPost s id =
        ((incrementReadCount s id).1,
         IncResult.ok false (note.currentReads + 1))) ∧
    (∀ note, getNote s id = some note → note.maxReads = some 2 →
      note.currentReads = 0 →
      (incrementPost s id).2 = IncResult.ok false 1 ∧
      notesGet (incrementPost s id).1 id =
        ((incrementPost s id).1, FetchResult.found (toPublic (bumpNote note))) ∧
      (incrementPost (incrementPost s id).1 id).2 = IncResult.ok true 2 ∧
      notesGet (incrementPost (incrementPost s id).1 id).1 id =
        ((incrementPost (incrementPost s id).1 id).1, FetchResult.notFound)) := by
  refine ⟨incrementPost_absent s id, ?_, ?_, ?_⟩
  · intro note m hg hm
    exact ⟨fun hge => incrementPost_kill s id note m hg hm hge,
      fun hlt => incrementPost_alive s id note m hg hm hlt⟩
  · intro note hg hm
    exact incrementPost_nolimit s id note hg hm
  · intro note hg hm hc
    have hfirst := incrementPost_alive s id note 2 hg hm (by omega)
    have hg2 : getNote (incrementPost s id).1 id = some (bumpNote note) := by
      rw [hfirst]
      exact getNote_inc_some s id note hg
    constructor
    · rw [hfirst, hc]
    constructor
    · exact notesGet_alive _ id (bumpNote note) 2 hg2
        (by rw [bumpNote_maxReads]; exact hm)
        (by rw [bumpNote_currentReads]; omega)
    constructor
    · have hsecond := incrementPost_kill _ id (bumpNote note) 2 hg2
        (by rw [bumpNote_maxReads]; exact hm)
        (by rw [bumpNote_currentReads]; omega)
      rw [hsecond, bumpNote_currentReads, hc]
    · have hsecond := incrementPost_kill _ id (bumpNote note) 2 hg2
        (by rw [bumpNote_maxReads]; exact hm)
        (by rw [bumpNote_currentReads]; omega)
      rw [hsecond]
      exact notesGet_absent _ id (getNote_delete _ id)

/-- C3 witness: the theorem applied to the concrete one-note store with
maxReads 2. -/
theorem claim_C3_witness :
    incrementPost [] "n1" = ([], IncResult.notFound) ∧
    (incrementPost [mkSampleNote (some 2) 0] "n1").2 = IncResult.ok false 1 ∧
    (incrementPost (incrementPost [mkSampleNote (some 2) 0] "n1").1 "n1").2 =
      IncResult.ok true 2 ∧
    notesGet
      (incrementPost (incrementPost [mkSampleNote (some 2) 0] "n1").1 "n1").1
      "n1" =
      ((incrementPost (incrementPost [mkSampleNote (some 2) 0] "n1").1 "n1").1,
        FetchResult.notFound) := by
  refine ⟨(claim_C3 [] "n1").1 (by decide), ?_, ?_, ?_⟩
  · exact ((claim_C3 [mkSampleNote (some 2) 0] "n1").2.2.2
      (mkSampleNote (some 2) 0) (by decide) (by decide) (by decide)).1
  · exact ((claim_C3 [mkSampleNote (some 2) 0] "n1").2.2.2
      (mkSampleNote (some 2) 0) (by decide) (by decide) (by decide)).2.2.1
  · exact ((claim_C3 [mkSampleNote (some 2) 0] "n1").2.2.2
      (mkSampleNote (some 2) 0) (by decide) (by decide) (by decide)).2.2.2

/-- C8: for a note with selfDestruct true and no maxReads, the increment
route only increments and reports undestroyed (count 1 on a fresh note);
the note stays fetchable, and only an explicit DELETE call makes a
subsequent fetch report not-found. -/
theorem claim_C8 (s : Store) (id : String) (note : Note)
    (hg : getNote s id = some note) (_hsd : note.selfDestruct = true)
    (hm : note.maxReads = none) :
    incrementPost s id =
      ((incrementReadCount s id).1, IncResult.ok false (note.currentReads + 1)) ∧
    getNote (incrementPost s id).1 id = some (bumpNote note) ∧
    (note.currentReads = 0 → (incrementPost s id).2 = IncResult.ok false 1) ∧
    (notesGet (incrementPost s id).1 id).2 =
      FetchResult.found (toPublic (bumpNote note)) ∧
    notesDelete (incrementPost s id).1 id =
      ((deleteNote (incrementPost s id).1 id).1, DelResult.ok) ∧
    notesGet (deleteNote (incrementPost s id).1 id).1 id =
      ((deleteNote (incrementPost s id).1 id).1, FetchResult.notFound) := by
  have hpost := incrementPost_nolimit s id note hg hm
  have hg2 : getNote (incrementPost s id).1 id = some (bumpNote note) := by
    rw [hpost]
    exact getNote_inc_some s id note hg
  refine ⟨hpost, hg2, ?_, ?_, ?_, ?_⟩
  · intro hc
    rw [hpost, hc]
  · rw [(notesGet_nolimit _ id (bumpNote note) hg2
      (by rw [bumpNote_maxReads]; exact hm))]
  · exact notesDelete_present _ id (bumpNote note) hg2
  · exact notesGet_absent _ id (getNote_delete _ id)

/-- C8 witness: the theorem applied to the concrete one-note store with
selfDestruct true and maxReads null. -/
theorem claim_C8_witness :
    incrementPost [mkSampleNote none 0] "n1" =
      ((incrementReadCount [mkSampleNote none 0] "n1").1,
        IncResult.ok false 1) ∧
    getNote (incrementPost [mkSampleNote none 0] "n1").1 "n1" =
      some (bumpNote (mkSampleNote none 0)) ∧
    notesGet (deleteNote (incrementPost [mkSampleNote none 0] "n1").1 "n1").1
        "n1" =
      ((deleteNote (incrementPost [mkSampleNote none 0] "n1").1 "n1").1,
        FetchResult.notFound) := by
  have h := claim_C8 [mkSampleNote none 0] "n1" (mkSampleNote none 0)
    (by decide) (by decide) (by decide)
  exact ⟨h.1, h.2.1, h.2.2.2.2.2⟩

/-- C9: fetch of an absent note reports not-found; fetch of a present
note below its limit (or without one) returns the public fields and leaves
the store untouched; fetch of a present note whose count has reached its
limit deletes it and reports not-found. -/
theorem claim_C9 (s : Store) (id : String) :
    (getNote s id = none → notesGet s id = (s, FetchResult.notFound)) ∧
    (∀ note, getNote s id = some note →
      ((note.maxReads = none ∨
          ∃ m, note.maxReads = some m ∧ note.currentReads < m) →
        notesGet s id = (s, FetchResult.found (toPublic note))) ∧
      (∀ m, note.maxReads = some m → note.currentReads ≥ m →
        notesGet s id = ((deleteNote s id).1, FetchResult.notFound) ∧
        getNote (deleteNote s id).1 id = none)) := by
  refine ⟨notesGet_absent s id, ?_⟩
  intro note hg
  constructor
  · intro hcase
    rcases hcase with hm | ⟨m, hm, hc⟩
    · exact notesGet_nolimit s id note hg hm
    · exact notesGet_alive s id note m hg hm hc
  · intro m hm hc
    exact ⟨notesGet_exhausted s id note m hg hm hc, getNote_delete s id⟩

/-- C9 witness: the theorem applied to concrete one-note stores, one
below its limit and one exhausted. -/
theorem claim_C9_witness :
    notesGet [mkSampleNote (some 2) 1] "n1" =
      ([mkSampleNote (some 2) 1],
        FetchResult.found (toPublic (mkSampleNote (some 2) 1))) ∧
    notesGet [mkSampleNote (some 2) 2] "n1" =
      ((deleteNote [mkSampleNote (some 2) 2] "n1").1, FetchResult.notFound) ∧
    getNote (deleteNote [mkSampleNote (some 2) 2] "n1").1 "n1" = none := by
  refine ⟨?_, ?_, ?_⟩
  · exact ((claim_C9 [mkSampleNote (some 2) 1] "n1").2 (mkSampleNote (some 2) 1)
      (by decide)).1 (Or.inr ⟨2, by decide, by decide⟩)
  · exact (((claim_C9 [mkSampleNote (some 2) 2] "n1").2 (mkSampleNote (some 2) 2)
      (by decide)).2 2 (by decide) (by decide)).1
  · exact (((claim_C9 [mkSampleNote (some 2) 2] "n1").2 (mkSampleNote (some 2) 2)
      (by decide)).2 2 (by decide) (by decide)).2

theorem encryptMessage_eq (message : String) (sec ephSec nonceB : List Nat)
    (heph : ephSec.length = 32) (hn : nonceB.length = 24) :
    encryptMessage message (b64encode (naclPub sec)) ephSec nonceB =
      Except.ok
        { ciphertext := b64encode (secretboxSeal
            (naclShared ephSec (naclPub sec)) nonceB (utf8Encode message))
          nonce := b64encode nonceB
          ephemeralPublicKey := b64encode (naclPub ephSec) } := by
  simp only [encryptMessage, b64_roundtrip, keyPairFromSecretKey, naclBox]
  rw [if_neg (by rw [naclPub_length]; omega)]
  rw [if_pos ⟨naclPub_length sec, heph, hn⟩]

theorem decryptMessage_eq (cB nB eB sB : List Nat)
    (hl1 : eB.length = 32) (hl2 : sB.length = 32) (hl3 : nB.length = 24) :
    decryptMessage (b64encode cB) (b64encode nB) (b64encode eB) (b64encode sB) =
      (match secretboxOpen (naclShared sB eB) nB cB with
       | none => Except.error decryptFailedMsg
       | some decrypted =>
         match utf8Decode decrypted with
         | none => Except.error invalidEncodingMsg
         | some text => Except.ok text) := by
  simp only [decryptMessage, naclBoxOpen, b64_roundtrip]
  rw [if_neg (by omega), if_neg (by omega), if_neg (by omega)]
  rcases hop : secretboxOpen (naclShared sB eB) nB cB with _ | d
  · rfl
  · rcases hd : utf8Decode d with _ | text <;> rfl

/-- C4: decrypting an encryption of any message under any well-formed
32-byte keypair with the matching secret key returns exactly the original
message. -/
theorem claim_C4 (message : String) (sec ephSec nonceB : List Nat)
    (hsec : sec.length = 32) (heph : ephSec.length = 32)
    (hn : nonceB.length = 24) :
    ∃ p : EncryptedPayload,
      encryptMessage message (b64encode (naclPub sec)) ephSec nonceB =
        Except.ok p ∧
      decryptMessage p.ciphertext p.nonce p.ephemeralPublicKey
        (b64encode sec) = Except.ok message := by
  refine ⟨_, encryptMessage_eq message sec ephSec nonceB heph hn, ?_⟩
  rw [decryptMessage_eq _ nonceB (naclPub ephSec) sec (naclPub_length ephSec)
    hsec hn]
  rw [naclShared_comm sec ephSec, secretboxOpen_seal]
  simp only [utf8_roundtrip]

/-- C4 witness: the theorem applied to a concrete message, secret key,
ephemeral key and nonce. -/
theorem claim_C4_witness :
    ∃ p : EncryptedPayload,
      encryptMessage "attack at dawn" (b64encode (naclPub sampleSec1))
        sampleEph sampleNonce = Except.ok p ∧
      decryptMessage p.ciphertext p.nonce p.ephemeralPublicKey
        (b64encode sampleSec1) = Except.ok "attack at dawn" :=
  claim_C4 "attack at dawn" sampleSec1 sampleEph sampleNonce
    (by decide) (by decide) (by decide)

/-- C5: decrypting with a different secret key fails with the decryption
failure error, and flipping any single bit of the ciphertext bytes, the
nonce bytes or the ephemeral public key bytes of a genuine payload makes
decryption fail with that same error instead of returning any
plaintext. -/
theorem claim_C5 (message : String) (sec1 sec2 ephSec nonceB : List Nat)
    (h1 : sec1.length = 32) (h2 : sec2.length = 32) (he : ephSec.length = 32)
    (hn : nonceB.length = 24) (hne : sec1 ≠ sec2) (p : EncryptedPayload)
    (hp : encryptMessage message (b64encode (naclPub sec1)) ephSec nonceB =
      Except.ok p) :
    decryptMessage p.ciphertext p.nonce p.ephemeralPublicKey
      (b64encode sec2) = Except.error decryptFailedMsg ∧
    (∀ cB i j, b64decode p.ciphertext = some cB → i < cB.length →
      decryptMessage (b64encode (flipBit cB i j)) p.nonce p.ephemeralPublicKey
        (b64encode sec1) = Except.error decryptFailedMsg) ∧
    (∀ nB i j, b64decode p.nonce = some nB → i < nB.length →
      decryptMessage p.ciphertext (b64encode (flipBit nB i j))
        p.ephemeralPublicKey (b64encode sec1) = Except.error decryptFailedMsg) ∧
    (∀ eB i j, b64decode p.ephemeralPublicKey = some eB → i < eB.length →
      decryptMessage p.ciphertext p.nonce (b64encode (flipBit eB i j))
        (b64encode sec1) = Except.error decryptFailedMsg) := by
  rw [encryptMessage_eq message sec1 ephSec nonceB he hn] at hp
  injection hp with hp
  subst hp
  have hkey1 : naclShared sec1 (naclPub ephSec) =
      naclShared ephSec (naclPub sec1) := naclShared_comm sec1 ephSec
  have hklen : ∀ x : List Nat, x.length = 32 →
      (naclShared x (naclPub ephSec)).length = 64 :=
    fun x _ => naclShared_length x (naclPub ephSec) (naclPub_length ephSec)
  refine ⟨?_, ?_, ?_, ?_⟩
  · rw [decryptMessage_eq _ nonceB (naclPub ephSec) sec2
      (naclPub_length ephSec) h2 hn]
    have hkne : naclShared sec2 (naclPub ephSec) ≠
        naclShared ephSec (naclPub sec1) := by
      rw [← hkey1]
      unfold naclShared
      rw [naclPub_of_len32 sec1 h1, naclPub_of_len32 sec2 h2]
      exact sortcat_inj_left sec2 sec1 (naclPub ephSec) h2 h1
        (naclPub_length ephSec) (fun hx => hne hx.symm)
    rw [secretboxOpen_wrong _ _ _ _ _
      (by rw [hklen sec2 h2, ← hkey1, hklen sec1 h1]) rfl (Or.inl hkne)]
  · intro cB i j hcb hi
    rw [b64_roundtrip] at hcb
    injection hcb with hcb
    subst hcb
    rw [decryptMessage_eq _ nonceB (naclPub ephSec) sec1
      (naclPub_length ephSec) h1 hn]
    rw [secretboxOpen_flip _ _ _ _ _ i j hi]
  · intro nB i j hnb hi
    rw [b64_roundtrip] at hnb
    injection hnb with hnb
    subst hnb
    rw [decryptMessage_eq _ (flipBit nonceB i j) (naclPub ephSec) sec1
      (naclPub_length ephSec) h1 (by rw [flipBit_length]; exact hn)]
    rw [secretboxOpen_wrong _ _ _ _ _
      (by rw [hklen sec1 h1, ← hkey1, hklen sec1 h1])
      (by rw [flipBit_length]) (Or.inr (flipBit_ne nonceB i j hi))]
  · intro eB i j heb hi
    rw [b64_roundtrip] at heb
    injection heb with heb
    subst heb
    rw [decryptMessage_eq _ nonceB (flipBit (naclPub ephSec) i j) sec1
      (by rw [flipBit_length]; exact naclPub_length ephSec) h1 hn]
    have hkne : naclShared sec1 (flipBit (naclPub ephSec) i j) ≠
        naclShared ephSec (naclPub sec1) := by
      rw [← hkey1]
      unfold naclShared
      rw [naclPub_of_len32 sec1 h1]
      exact sortcat_inj_right sec1 (flipBit (naclPub ephSec) i j)
        (naclPub ephSec) h1
        (by rw [flipBit_length]; exact naclPub_length ephSec)
        (naclPub_length ephSec) (flipBit_ne (naclPub ephSec) i j hi)
    rw [secretboxOpen_wrong _ _ _ _ _
      (by
        rw [naclShared_length sec1 (flipBit (naclPub ephSec) i j)
          (by rw [flipBit_length]; exact naclPub_length ephSec)]
        rw [← hkey1, hklen sec1 h1]) rfl (Or.inl hkne)]

set_option maxRecDepth 40000 in
/-- C5 witness: the theorem applied to concrete keys, nonce and message,
with bit 0 of byte 0 flipped in each component. -/
theorem claim_C5_witness :
    decryptMessage samplePayload.ciphertext samplePayload.nonce
      samplePayload.ephemeralPublicKey (b64encode sampleSec2) =
      Except.error decryptFailedMsg ∧
    decryptMessage (b64encode (flipBit sampleCipherBytes 0 0))
      samplePayload.nonce samplePayload.ephemeralPublicKey
      (b64encode sampleSec1) = Except.error decryptFailedMsg ∧
    decryptMessage samplePayload.ciphertext
      (b64encode (flipBit sampleNonce 0 0)) samplePayload.ephemeralPublicKey
      (b64encode sampleSec1) = Except.error decryptFailedMsg ∧
    decryptMessage samplePayload.ciphertext samplePayload.nonce
      (b64encode (flipBit (naclPub sampleEph) 0 0)) (b64encode sampleSec1) =
      Except.error decryptFailedMsg := by
  have hp : encryptMessage "hello" (b64encode (naclPub sampleSec1)) sampleEph
      sampleNonce = Except.ok samplePayload :=
    encryptMessage_eq "hello" sampleSec1 sampleEph sampleNonce
      (by decide) (by decide)
  have h := claim_C5 "hello" sampleSec1 sampleSec2 sampleEph sampleNonce
    (by decide) (by decide) (by decide) (by decide) (by decide)
    samplePayload hp
  refine ⟨h.1, ?_, ?_, ?_⟩
  · exact h.2.1 sampleCipherBytes 0 0 (b64_roundtrip sampleCipherBytes)
      (by decide)
  · exact h.2.2.1 sampleNonce 0 0 (b64_roundtrip sampleNonce) (by decide)
  · exact h.2.2.2 (naclPub sampleEph) 0 0 (b64_roundtrip (naclPub sampleEph))
      (by decide)

/-- C6: the derived keypair is a function of the signature returned for
the fixed challenge alone: any two signing capabilities that return the
same signature on the challenge for an identity derive bit-identical
keypairs, so two invocations with the same signing material always
re-derive the same keypair. -/
theorem claim_C6 (sign1 sign2 : List Nat → List Nat) (walletAddress : String)
    (h : sign1 (utf8Encode ("DarkNote encryption key for " ++ walletAddress)) =
      sign2 (utf8Encode ("DarkNote encryption key for " ++ walletAddress))) :
    deriveEncryptionKeyFromSignature sign1 walletAddress =
      deriveEncryptionKeyFromSignature sign2 walletAddress := by
  simp only [deriveEncryptionKeyFromSignature]
  rw [h]

/-- C6 witness: two different signing capabilities that agree on the
concrete challenge derive the same keypair. -/
theorem claim_C6_witness :
    deriveEncryptionKeyFromSignature (fun _ => [1, 2, 3]) "addr" =
      deriveEncryptionKeyFromSignature
        (fun b => if b.length = 0 then [9] else [1, 2, 3]) "addr" :=
  claim_C6 (fun _ => [1, 2, 3])
    (fun b => if b.length = 0 then [9] else [1, 2, 3]) "addr" (by decide)

/-- C7: when the authenticated open succeeds but the opened bytes are not
well-formed text, decryptMessage fails with the invalid-encoding error,
which is a different error value than the authentication-failure error; on
well-formed opened bytes it returns the decoded text. -/
theorem claim_C7 (ct nonce eph sk : String) (cB nB eB sB p : List Nat)
    (hct : b64decode ct = some cB) (hn : b64decode nonce = some nB)
    (he : b64decode eph = some eB) (hs : b64decode sk = some sB)
    (hl1 : eB.length = 32) (hl2 : sB.length = 32) (hl3 : nB.length = 24)
    (hopen : secretboxOpen (naclShared sB eB) nB cB = some p) :
    (utf8Decode p = none →
      decryptMessage ct nonce eph sk = Except.error invalidEncodingMsg) ∧
    (∀ text, utf8Decode p = some text →
      decryptMessage ct nonce eph sk = Except.ok text) ∧
    invalidEncodingMsg ≠ decryptFailedMsg := by
  have hbase : decryptMessage ct nonce eph sk =
      (match utf8Decode p with
       | none => Except.error invalidEncodingMsg
       | some text => Except.ok text) := by
    simp only [decryptMessage, naclBoxOpen, hct, hn, he, hs]
    rw [if_neg (by omega), if_neg (by omega), if_neg (by omega), hopen]
    rfl
  refine ⟨?_, ?_, by decide⟩
  · intro hu
    rw [hbase, hu]
  · intro text ht
    rw [hbase, ht]

set_option maxRecDepth 40000 in
/-- C7 witness: a concrete payload whose sealed bytes open to an invalid
byte group fails with the invalid-encoding error, and one sealing
well-formed text returns that text. -/
theorem claim_C7_witness :
    decryptMessage
        (b64encode (secretboxSeal (naclShared sampleSec1 (naclPub sampleEph))
          sampleNonce [0, 216, 0]))
        (b64encode sampleNonce) (b64encode (naclPub sampleEph))
        (b64encode sampleSec1) = Except.error invalidEncodingMsg ∧
    decryptMessage
        (b64encode (secretboxSeal (naclShared sampleSec1 (naclPub sampleEph))
          sampleNonce (utf8Encode "ok")))
        (b64encode sampleNonce) (b64encode (naclPub sampleEph))
        (b64encode sampleSec1) = Except.ok "ok" := by
  constructor
  · exact (claim_C7 _ _ _ _ _ sampleNonce (naclPub sampleEph) sampleSec1
      [0, 216, 0] (b64_roundtrip _) (b64_roundtrip _) (b64_roundtrip _)
      (b64_roundtrip _) (by decide) (by decide) (by decide)
      (secretboxOpen_seal _ _ _)).1 (by decide)
  · exact (claim_C7 _ _ _ _ _ sampleNonce (naclPub sampleEph) sampleSec1
      (utf8Encode "ok") (b64_roundtrip _) (b64_roundtrip _) (b64_roundtrip _)
      (b64_roundtrip _) (by decide) (by decide) (by decide)
      (secretboxOpen_seal _ _ _)).2.1 "ok" (utf8_roundtrip "ok")

/-- C10: decryptMessage on any four input strings either returns a text
obtained from the full authenticated pipeline (base64 decode of all four
inputs, authenticated open, text decode) or fails with an error whose
message begins with the text Decryption failed; no other outcome, and in
particular no partial plaintext, is possible. -/
theorem claim_C10 (ct nonce eph sk : String) :
    (∃ cB nB eB sB p text,
      b64decode ct = some cB ∧ b64decode nonce = some nB ∧
      b64decode eph = some eB ∧ b64decode sk = some sB ∧
      secretboxOpen (naclShared sB eB) nB cB = some p ∧
      utf8Decode p = some text ∧
      decryptMessage ct nonce eph sk = Except.ok text) ∨
    (∃ e rest, decryptMessage ct nonce eph sk = Except.error e ∧
      e = "Decryption failed" ++ rest) := by
  rcases hct : b64decode ct with _ | cB
  · right
    exact ⟨"Decryption failed: " ++ "TypeError: invalid encoding",
      ": TypeError: invalid encoding",
      by simp only [decryptMessage, hct], by decide⟩
  rcases hn : b64decode nonce with _ | nB
  · right
    exact ⟨"Decryption failed: " ++ "TypeError: invalid encoding",
      ": TypeError: invalid encoding",
      by simp only [decryptMessage, hct, hn], by decide⟩
  rcases he : b64decode eph with _ | eB
  · right
    exact ⟨"Decryption failed: " ++ "TypeError: invalid encoding",
      ": TypeError: invalid encoding",
      by simp only [decryptMessage, hct, hn, he], by decide⟩
  rcases hs : b64decode sk with _ | sB
  · right
    exact ⟨"Decryption failed: " ++ "TypeError: invalid encoding",
      ": TypeError: invalid encoding",
      by simp only [decryptMessage, hct, hn, he, hs], by decide⟩
  by_cases hl1 : eB.length = 32
  · by_cases hl2 : sB.length = 32
    · by_cases hl3 : nB.length = 24
      · rcases hop : secretboxOpen (naclShared sB eB) nB cB with _ | p
        · right
          refine ⟨"Decryption failed: " ++
              "Error: Decryption failed - invalid key or corrupted data",
            ": Error: Decryption failed - invalid key or corrupted data",
            ?_, by decide⟩
          simp only [decryptMessage, naclBoxOpen, hct, hn, he, hs]
          rw [if_neg (by omega), if_neg (by omega), if_neg (by omega), hop]
        · rcases hdec : utf8Decode p with _ | text
          · right
            refine ⟨"Decryption failed: " ++ "URIError: URI malformed",
              ": URIError: URI malformed", ?_, by decide⟩
            simp only [decryptMessage, naclBoxOpen, hct, hn, he, hs]
            rw [if_neg (by omega), if_neg (by omega), if_neg (by omega)]
            simp only [hop, hdec]
          · left
            refine ⟨cB, nB, eB, sB, p, text, rfl, rfl, rfl, rfl, hop, hdec, ?_⟩
            simp only [decryptMessage, naclBoxOpen, hct, hn, he, hs]
            rw [if_neg (by omega), if_neg (by omega), if_neg (by omega)]
            simp only [hop, hdec]
      · right
        refine ⟨"Decryption failed: " ++ "Error: bad nonce size",
          ": Error: bad nonce size", ?_, by decide⟩
        simp only [decryptMessage, naclBoxOpen, hct, hn, he, hs]
        rw [if_neg (by omega), if_neg (by omega), if_pos (by omega)]
    · right
      refine ⟨"Decryption failed: " ++ "Error: bad secret key size",
        ": Error: bad secret key size", ?_, by decide⟩
      simp only [decryptMessage, naclBoxOpen, hct, hn, he, hs]
      rw [if_neg (by omega), if_pos (by omega)]
  · right
    refine ⟨"Decryption failed: " ++ "Error: bad public key size",
      ": Error: bad public key size", ?_, by decide⟩
    simp only [decryptMessage, naclBoxOpen, hct, hn, he, hs]
    rw [if_pos (by omega)]

end Darknote
